import Mathlib

/-!
Verification of the LinkedIn job automation pipeline (`src/`): a shallow
embedding of the resilience utilities (`utils.py`), the AI matcher
(`ai_matcher.py`), the sheet store (`sheets_manager.py`), the search-URL
builder (`linkedin_scraper.py`) and the orchestrator's notification step
(`main.py`), together with theorems settling the specified properties.

Numeric time and delay quantities (Python floats) are modelled as rationals;
Python exceptions are modelled with `Except`.
-/

deriving instance DecidableEq for Except

namespace JobAuto

/-! ## utils.py: retry_on_failure -/

/--
Model of `retry_on_failure(max_retries, delay, backoff)` from `src/utils.py`, lines
77-103.  The wrapped operation is modelled as `op : Nat → Except E A` giving
the outcome of each attempt (attempt numbering starts at 0).  The Python
`for attempt in range(max_retries + 1)` loop with the `attempt < max_retries`
guard is rendered with `remaining = max_retries - attempt` as the structural
fuel.  The result records the final outcome, the list of sleep durations
performed between attempts (`time.sleep(current_delay)` followed by
`current_delay *= backoff`), and the total number of attempts made.
-/
def retryLoop {E A : Type} (op : Nat → Except E A) :
    Nat → Nat → ℚ → ℚ → Except E A × List ℚ × Nat
  | attempt, remaining, currentDelay, backoff =>
    match op attempt with
    | .ok a => (.ok a, [], 1)
    | .error e =>
      match remaining with
      | 0 => (.error e, [], 1)
      | r + 1 =>
        let rest := retryLoop op (attempt + 1) r (currentDelay * backoff) backoff
        (rest.1, currentDelay :: rest.2.1, rest.2.2 + 1)

/-- The full wrapper produced by `retry_on_failure`: start at attempt 0 with
`remaining = max_retries` and `current_delay = delay`. -/
def retry_on_failure {E A : Type} (maxRetries : Nat) (delay backoff : ℚ)
    (op : Nat → Except E A) : Except E A × List ℚ × Nat :=
  retryLoop op 0 maxRetries delay backoff

/-! ## utils.py: rate_limit -/

/-- The quantity `min_interval = period / calls` from `src/utils.py`, line 117. -/
def min_interval (calls : Nat) (period : ℚ) : ℚ := period / calls

/-- The sleep performed by the `rate_limit` wrapper (`src/utils.py`, lines
122-127): `elapsed = time.time() - last_called[0]`,
`left_to_wait = min_interval - elapsed`, and `time.sleep(left_to_wait)` only
when `left_to_wait > 0`.  `now` is the value of `time.time()` at wrapper
entry. -/
def rate_limit_wait (minInterval lastCalled now : ℚ) : ℚ :=
  let elapsed := now - lastCalled
  let leftToWait := minInterval - elapsed
  if 0 < leftToWait then leftToWait else 0

/-- The instant at which the wrapped function is entered: wrapper entry time
plus the sleep. -/
def rate_limit_entry (minInterval lastCalled now : ℚ) : ℚ :=
  now + rate_limit_wait minInterval lastCalled now

/-- One execution of the `rate_limit` wrapper (`src/utils.py`, lines 122-131)
together with its effect on the shared `last_called` cell.  The wrapped
function is entered at `rate_limit_entry`, runs for `dur` seconds and
finishes with `outcome`.  The source sets `last_called[0] = time.time()`
only on the line after `result = func(*args, **kwargs)` returns; when `func`
raises, the assignment is never executed and the cell keeps its old value. -/
def rate_limit_run {E A : Type} (minInterval lastCalled now dur : ℚ)
    (outcome : Except E A) : Except E A × ℚ :=
  match outcome with
  | .ok a => (.ok a, rate_limit_entry minInterval lastCalled now + dur)
  | .error e => (.error e, lastCalled)

/-! ## ai_matcher.py: AIMatcher.match_job -/

/-- The result dictionary returned by `AIMatcher.match_job`
(`src/ai_matcher.py`): keys `score` and `coverLetter`. -/
structure MatchResult where
  score : Int
  coverLetter : String
deriving DecidableEq

/-- The sentinel `{"score": 0, "coverLetter": ""}` returned on short input
and on parse failure. -/
def matchSentinel : MatchResult := ⟨0, ""⟩

/-- The `score` field of the JSON object parsed from the model response:
either absent, a numeric value (JSON int or float, modelled as a rational),
or present but not convertible to a number (so that Python `int(...)`
raises). -/
inductive ScoreField where
  | missing : ScoreField
  | numeric : ℚ → ScoreField
  | nonNumeric : ScoreField
deriving DecidableEq

/-- What `json.loads` makes of the (code-fence-stripped) model response:
a `json.JSONDecodeError`, or an object with a `score` field and an optional
`coverLetter` string field. -/
inductive ParseResult where
  | jsonError : ParseResult
  | obj : ScoreField → Option String → ParseResult
deriving DecidableEq

/-- The outcome of one `self.client.chat.completions.create` call: either
the API call raises (timeout, rate limit, transport failure), or it returns
content whose parse is described by a `ParseResult`. -/
inductive ModelCall where
  | apiRaise : ModelCall
  | respond : ParseResult → ModelCall
deriving DecidableEq

/-- The exception propagated out of one attempt of `match_job`'s body:
an API-level error re-raised by the generic `except Exception` handler, or
the `ValueError` from `int(result['score'])` on a non-numeric score (also
re-raised by the generic handler). -/
inductive MatchErr where
  | apiErr : MatchErr
  | convErr : MatchErr
deriving DecidableEq

/-- Python `int(q)` on a number: truncation toward zero. -/
def pythonInt (q : ℚ) : Int := if q < 0 then -Int.floor (-q) else Int.floor q

/--
One attempt of the body of `AIMatcher.match_job` (`src/ai_matcher.py`,
lines 77-136), before the `retry_on_failure` decorator is applied.
`jobDescription = none` models Python `None`.  Returns the attempt's
outcome (`.ok` for a normal return, `.error` for a raised exception)
together with a flag recording whether the external model was invoked.

Mirrors the source:
* `if not job_description or len(job_description) < 50:` return the
  sentinel (`None` and the empty string are falsy; any string shorter than
  50 characters takes this branch);
* a raised API error falls to `except Exception: raise`;
* `json.JSONDecodeError` returns the sentinel;
* `if 'score' not in result or 'coverLetter' not in result:` return the
  sentinel;
* `score = int(result['score']); score = max(0, min(100, score))` then
  return `{"score": score, "coverLetter": result['coverLetter']}`;
  a non-numeric `score` makes `int` raise, handled by
  `except Exception: raise`.
-/
def match_job_attempt (resume : String) (jobDescription : Option String)
    (call : ModelCall) : Except MatchErr MatchResult × Bool :=
  match jobDescription with
  | none => (.ok matchSentinel, false)
  | some jd =>
    if jd.length < 50 then (.ok matchSentinel, false)
    else
      let _ := resume
      match call with
      | .apiRaise => (.error .apiErr, true)
      | .respond .jsonError => (.ok matchSentinel, true)
      | .respond (.obj sf cl) =>
        match sf, cl with
        | .missing, _ => (.ok matchSentinel, true)
        | _, none => (.ok matchSentinel, true)
        | .numeric q, some letter =>
          (.ok ⟨max 0 (min 100 (pythonInt q)), letter⟩, true)
        | .nonNumeric, some _ => (.error .convErr, true)

/-- Model of `AIMatcher.match_job` as decorated with
`@retry_on_failure(max_retries=3, delay=2.0, backoff=2.0)`
(`src/ai_matcher.py`, line 65).  `calls i` is the outcome of the model call
made by attempt `i` (the oracle for the nondeterministic external service).
Returns the final outcome, the sleeps performed by the retry wrapper, and
the number of attempts. -/
def match_job (resume : String) (jobDescription : Option String)
    (calls : Nat → ModelCall) : Except MatchErr MatchResult × List ℚ × Nat :=
  retry_on_failure 3 2 2 (fun i => (match_job_attempt resume jobDescription (calls i)).1)

/-! ## ai_matcher.py: AIMatcher.batch_match_jobs -/

/-- A scraped job dictionary as consumed by `batch_match_jobs`
(`src/ai_matcher.py`, lines 138-174). -/
structure Job where
  title : String
  company : String
  location : String
  description : String
  apply_link : String
deriving DecidableEq, Inhabited

/-- A job dictionary after `job['score'] = result['score']` and
`job['coverLetter'] = result['coverLetter']` have been set. -/
structure MatchedJob where
  job : Job
  score : Int
  coverLetter : String
deriving DecidableEq

/-- The loop body of `batch_match_jobs`: iterate over the jobs with their
(1-based in the source, 0-based here) index, call `self.match_job` on each
(modelled by `matchFn`, whose `Except` result models a normal return versus
a raised exception), enrich and append on success, skip to the next
job when the call raises.  The returned dictionary is always a non-empty
dict, hence truthy, so the `if result:` guard in the source always takes
the success branch on a normal return. -/
def batchMatchGo (matchFn : Nat → Job → Except MatchErr MatchResult) :
    Nat → List Job → List MatchedJob
  | _, [] => []
  | i, job :: rest =>
    match matchFn i job with
    | .ok r => ⟨job, r.score, r.coverLetter⟩ :: batchMatchGo matchFn (i + 1) rest
    | .error _ => batchMatchGo matchFn (i + 1) rest

/-- Model of `AIMatcher.batch_match_jobs` (`src/ai_matcher.py`, lines 138-174). -/
def batch_match_jobs (matchFn : Nat → Job → Except MatchErr MatchResult)
    (jobs : List Job) : List MatchedJob :=
  batchMatchGo matchFn 0 jobs

/-! ## sheets_manager.py: SheetsManager.update_or_append_job -/

/-- A spreadsheet cell value: the rows written by the code hold strings in
every column except `Score`, which holds the integer `job_data.get('score', 0)`. -/
inductive Cell where
  | s : String → Cell
  | n : Int → Cell
deriving DecidableEq, Inhabited

/-- The job dictionary consumed by `update_or_append_job`
(`src/sheets_manager.py`, lines 146-201). -/
structure JobData where
  title : String
  company : String
  location : String
  apply_link : String
  score : Int
  description : String
  coverLetter : String
deriving DecidableEq

/-- The row prepared for a job (`src/sheets_manager.py`, lines 176-184). -/
def rowOf (j : JobData) : List Cell :=
  [.s j.title, .s j.company, .s j.location, .s j.apply_link,
   .n j.score, .s j.description, .s j.coverLetter]

/-- The header row `['Title', 'Company', 'Location', 'Link', 'Score',
'Description', 'Cover Letter']` (`src/sheets_manager.py`, line 162). -/
def headersRow : List Cell :=
  [.s "Title", .s "Company", .s "Location", .s "Link",
   .s "Score", .s "Description", .s "Cover Letter"]

/-- The row-scan of `update_or_append_job` (`src/sheets_manager.py`, lines
170-173): `for i, row in enumerate(all_values[1:], start=2)`, stopping at
the first row with `len(row) > 3 and row[3] == job_link`.  The caller
passes the rows after the header together with the index of the first of
them; `row.get? 3 = some c` holds exactly when `len(row) > 3`, with `c` the
cell `row[3]`. -/
def find_job_row (jobLink : String) : List (List Cell) → Nat → Option Nat
  | [], _ => none
  | row :: rest, i =>
    match row.get? 3 with
    | some c =>
      if c = Cell.s jobLink then some i else find_job_row jobLink rest (i + 1)
    | none => find_job_row jobLink rest (i + 1)

/-- Model of `worksheet.update_cell` at 0-based column `idx`: overwrite the cell in
place when it exists, otherwise extend the row with empty cells up to that
column. -/
def setCell (row : List Cell) (idx : Nat) (v : Cell) : List Cell :=
  if idx < row.length then row.set idx v
  else row ++ List.replicate (idx - row.length) (Cell.s "") ++ [v]

/-- The update branch of `update_or_append_job` (`src/sheets_manager.py`,
lines 186-190): `for col_index, value in enumerate(row, start=1):
worksheet.update_cell(existing_row_index, col_index, value)` — write the
prepared values into consecutive cells starting at column `i`. -/
def write_cells (row : List Cell) (i : Nat) : List Cell → List Cell
  | [] => row
  | v :: vs => write_cells (setCell row i v) (i + 1) vs

/-- The `if not all_values:` block of `update_or_append_job`
(`src/sheets_manager.py`, lines 160-164): an empty sheet first receives the
header row. -/
def sheetWithHeaders (sheet : List (List Cell)) : List (List Cell) :=
  if sheet.isEmpty then [headersRow] else sheet

/-- Model of `SheetsManager.update_or_append_job` (`src/sheets_manager.py`, lines
146-201), acting on the sheet state (a list of rows; row 1 of the sheet is
list index 0).  An empty sheet first receives the header row; then the rows
below the header are scanned for the job's `apply_link`; a hit is
overwritten cell by cell, otherwise the prepared row is appended. -/
def update_or_append_job (job : JobData) (sheet : List (List Cell)) :
    List (List Cell) :=
  match find_job_row job.apply_link (sheetWithHeaders sheet).tail 1 with
  | some i =>
    (sheetWithHeaders sheet).set i
      (write_cells ((sheetWithHeaders sheet).getD i []) 0 (rowOf job))
  | none => sheetWithHeaders sheet ++ [rowOf job]

/-- Whether a row's Link column (`row[3]`) exists and equals `link`. -/
def matchRow (link : String) (row : List Cell) : Bool :=
  row.get? 3 = some (Cell.s link)

/-- The number of data rows (rows below the header row) whose Link column
equals `link`. -/
def countLink (sheet : List (List Cell)) (link : String) : Nat :=
  (sheet.tail.filter (matchRow link)).length

/-! ## linkedin_scraper.py: LinkedInScraper.build_search_url -/

/-- The filter dictionary consumed by `build_search_url`
(`src/linkedin_scraper.py`, lines 42-125).  `none` models an absent key;
`filters.get(key)` is truthy exactly when the key maps to a non-empty
string. -/
structure Filters where
  keyword : Option String := none
  location : Option String := none
  experience_level : Option String := none
  remote : Option String := none
  job_type : Option String := none
  easy_apply : Bool := false
deriving DecidableEq

/-- Python truthiness of `filters.get(key)` for a string-valued key:
`None` and the empty string are falsy. -/
def truthy : Option String → Bool
  | none => false
  | some s => s ≠ ""

/-- Python `str.split(",")` on the character list: splitting at every comma,
with `"".split(",") == [""]`. -/
def pySplitCommaChars : List Char → List (List Char)
  | [] => [[]]
  | c :: rest =>
    let groups := pySplitCommaChars rest
    if c = ',' then [] :: groups
    else
      match groups with
      | [] => [[c]]
      | g :: gs => (c :: g) :: gs

/-- Python `str.split(",")`. -/
def pySplitComma (s : String) : List String :=
  (pySplitCommaChars s.toList).map String.mk

/-- Python `str.strip()`: remove leading and trailing whitespace. -/
def pyStrip (s : String) : String :=
  String.mk (((s.toList.dropWhile Char.isWhitespace).reverse.dropWhile
    Char.isWhitespace).reverse)

/-- Python `",".join(parts)`. -/
def pyJoinComma : List String → String
  | [] => ""
  | [c] => c
  | c :: cs => c ++ "," ++ pyJoinComma cs

/-- The `experience_map` dictionary (`src/linkedin_scraper.py`, lines 71-78). -/
def experience_map : String → Option String
  | "Internship" => some "1"
  | "Entry level" => some "2"
  | "Associate" => some "3"
  | "Mid-Senior level" => some "4"
  | "Director" => some "5"
  | "Executive" => some "6"
  | _ => none

/-- The `remote_map` dictionary (`src/linkedin_scraper.py`, lines 89-93). -/
def remote_map : String → Option String
  | "On-Site" => some "1"
  | "Remote" => some "2"
  | "Hybrid" => some "3"
  | _ => none

/-- The `job_type_map` dictionary (`src/linkedin_scraper.py`, lines 104-111). -/
def job_type_map : String → Option String
  | "Full-time" => some "F"
  | "Part-time" => some "P"
  | "Contract" => some "C"
  | "Temporary" => some "T"
  | "Other" => some "O"
  | "Internship" => some "I"
  | _ => none

/-- The list `[level.strip() for level in filters["experience_level"].split(",")]`. -/
def experienceEntries (f : Filters) : List String :=
  (pySplitComma (f.experience_level.getD "")).map pyStrip

/-- The list `[rt.strip() for rt in filters["remote"].split(",")]`. -/
def remoteEntries (f : Filters) : List String :=
  (pySplitComma (f.remote.getD "")).map pyStrip

/-- The list `[jt.strip() for jt in filters["job_type"].split(",")]`. -/
def jobTypeEntries (f : Filters) : List String :=
  (pySplitComma (f.job_type.getD "")).map pyStrip

/-- The list `[experience_map.get(level) for level in levels if level in experience_map]`. -/
def experienceCodes (f : Filters) : List String :=
  (experienceEntries f).filterMap experience_map

/-- The remote codes kept after the `remote_map` lookup. -/
def remoteCodes (f : Filters) : List String :=
  (remoteEntries f).filterMap remote_map

/-- The job-type codes kept after the `job_type_map` lookup. -/
def jobTypeCodes (f : Filters) : List String :=
  (jobTypeEntries f).filterMap job_type_map

/-- The `&f_E=...` fragment appended by the experience-level block
(`src/linkedin_scraper.py`, lines 70-84): empty when the facet is absent or
falsy, and empty when `level_codes` is empty. -/
def experienceSegment (f : Filters) : String :=
  if truthy f.experience_level then
    if (experienceCodes f).isEmpty then ""
    else "&f_E=" ++ pyJoinComma (experienceCodes f)
  else ""

/-- The `&f_WT=...` fragment appended by the remote block (lines 88-99). -/
def remoteSegment (f : Filters) : String :=
  if truthy f.remote then
    if (remoteCodes f).isEmpty then ""
    else "&f_WT=" ++ pyJoinComma (remoteCodes f)
  else ""

/-- The `&f_JT=...` fragment appended by the job-type block (lines 103-117). -/
def jobTypeSegment (f : Filters) : String :=
  if truthy f.job_type then
    if (jobTypeCodes f).isEmpty then ""
    else "&f_JT=" ++ pyJoinComma (jobTypeCodes f)
  else ""

/-- Model of `LinkedInScraper.build_search_url` (`src/linkedin_scraper.py`, lines
42-125): the sequential `url += ...` accumulation, written as the
concatenation of the fragments each block contributes. -/
def build_search_url (f : Filters) : String :=
  "https://www.linkedin.com/jobs/search/?f_TPR=r86400"
    ++ (if truthy f.keyword then "&keywords=" ++ f.keyword.getD "" else "")
    ++ (if truthy f.location then "&location=" ++ f.location.getD "" else "")
    ++ experienceSegment f
    ++ remoteSegment f
    ++ jobTypeSegment f
    ++ (if f.easy_apply then "&f_EA=true" else "")

/-! ## main.py: the notification step of JobSearchAutomation.run -/

/-- An outbound Telegram message sent during step 5/6 of
`JobSearchAutomation.run` (`src/main.py`, lines 166-191). -/
inductive Notification where
  | jobMatch : MatchedJob → Notification
  | summary : Nat → Nat → Nat → Notification
deriving DecidableEq

/-- Steps 5 and 6 of `JobSearchAutomation.run` (`src/main.py`, lines
166-191): `high_score_jobs = [job for job in matched_jobs if
job.get('score', 0) >= self.config['min_score']]`, then one
`send_job_notification` per high-scoring job followed by the
`send_batch_summary` call. -/
def runNotifications (minScore : Int) (totalJobs : Nat)
    (matched : List MatchedJob) : List Notification :=
  let high := matched.filter (fun j => minScore ≤ j.score)
  high.map Notification.jobMatch
    ++ [Notification.summary totalJobs matched.length high.length]

/-- A job description of at least 50 characters, used to exercise the
non-short-circuit path of the matcher in concrete instances. -/
def jd50 : String :=
  "a sufficiently long job description used to reach the model call path"

/-! ## Theorems -/

/-- If every attempt in scope fails, `retryLoop` makes all remaining
attempts, sleeping `d, d*b, d*b^2, ...` between them, and ends with the
error of the last attempt. -/
theorem retryLoop_all_fail {E A : Type} (op : Nat → Except E A) (errs : Nat → E) :
    ∀ (remaining attempt : Nat) (d b : ℚ),
      (∀ i, attempt ≤ i → i ≤ attempt + remaining → op i = .error (errs i)) →
      retryLoop op attempt remaining d b =
        (.error (errs (attempt + remaining)),
         (List.range remaining).map (fun k => d * b ^ k), remaining + 1) := by
  intro remaining
  induction remaining with
  | zero =>
    intro attempt d b h
    rw [retryLoop, h attempt (le_refl _) (by omega)]
    simp
  | succ r ih =>
    intro attempt d b h
    rw [retryLoop, h attempt (le_refl _) (by omega)]
    have hrest := ih (attempt + 1) (d * b) b (fun i h1 h2 => h i (by omega) (by omega))
    simp only [hrest, Prod.mk.injEq]
    refine ⟨by rw [show attempt + 1 + r = attempt + (r + 1) by omega], ?_, trivial⟩
    rw [List.range_succ_eq_map, List.map_cons, List.map_map, List.cons.injEq]
    refine ⟨by simp, ?_⟩
    apply List.map_congr_left
    intro k _
    simp only [Function.comp_apply, Nat.succ_eq_add_one]
    ring

/-- If the attempts before attempt `attempt + j` fail and attempt
`attempt + j` succeeds, `retryLoop` stops there with its result, having
slept `j` times. -/
theorem retryLoop_first_success {E A : Type} (op : Nat → Except E A)
    (errs : Nat → E) (a : A) :
    ∀ (j remaining attempt : Nat) (d b : ℚ), j ≤ remaining →
      (∀ i, attempt ≤ i → i < attempt + j → op i = .error (errs i)) →
      op (attempt + j) = .ok a →
      retryLoop op attempt remaining d b =
        (.ok a, (List.range j).map (fun k => d * b ^ k), j + 1) := by
  intro j
  induction j with
  | zero =>
    intro remaining attempt d b hj herr hok
    rw [retryLoop]
    rw [show attempt + 0 = attempt from rfl] at hok
    rw [hok]
    simp
  | succ s ih =>
    intro remaining attempt d b hj herr hok
    match remaining, hj with
    | r + 1, hj =>
      rw [retryLoop, herr attempt (le_refl _) (by omega)]
      have hrest := ih r (attempt + 1) (d * b) b (by omega)
        (fun i h1 h2 => herr i (by omega) (by omega))
        (by rw [show attempt + 1 + s = attempt + (s + 1) by omega]; exact hok)
      simp only [hrest, Prod.mk.injEq]
      refine ⟨trivial, ?_, trivial⟩
      rw [List.range_succ_eq_map, List.map_cons, List.map_map, List.cons.injEq]
      refine ⟨by simp, ?_⟩
      apply List.map_congr_left
      intro k _
      simp only [Function.comp_apply, Nat.succ_eq_add_one]
      ring

/-- Claim C1: an operation wrapped by
`retry_on_failure(max_retries, delay, backoff)` that raises on every
invocation is invoked exactly `max_retries + 1` times, with sleeps
`delay, delay*backoff, delay*backoff^2, ...` between consecutive attempts,
and the exception of the last attempt is re-raised; if some attempt
returns normally, its result is returned and no further attempts are
made (here: attempt `j` is the first to return normally, so exactly
`j + 1` invocations happen). -/
theorem retry_on_failure_spec {E A : Type} (op : Nat → Except E A)
    (errs : Nat → E) (maxRetries : Nat) (delay backoff : ℚ) (j : Nat) (a : A) :
    ((∀ i, i ≤ maxRetries → op i = .error (errs i)) →
      retry_on_failure maxRetries delay backoff op =
        (.error (errs maxRetries),
         (List.range maxRetries).map (fun k => delay * backoff ^ k),
         maxRetries + 1)) ∧
    (j ≤ maxRetries → (∀ i, i < j → op i = .error (errs i)) → op j = .ok a →
      retry_on_failure maxRetries delay backoff op =
        (.ok a, (List.range j).map (fun k => delay * backoff ^ k), j + 1)) := by
  constructor
  · intro h
    have := retryLoop_all_fail op errs maxRetries 0 delay backoff
      (fun i h1 h2 => h i (by omega))
    simpa [retry_on_failure] using this
  · intro hj herr hok
    have := retryLoop_first_success op errs a j maxRetries 0 delay backoff hj
      (fun i h1 h2 => herr i (by omega)) (by simpa using hok)
    simpa [retry_on_failure] using this

/-- Witness for C1 at concrete inputs: an operation failing both attempts
with `max_retries = 1`, and an operation succeeding immediately. -/
theorem retry_on_failure_spec_witness :
    retry_on_failure 1 1 2 (fun _ => (Except.error 0 : Except Nat Nat)) =
      (.error 0, (List.range 1).map (fun k => (1 : ℚ) * 2 ^ k), 1 + 1) ∧
    retry_on_failure 1 1 2 (fun _ => (Except.ok 5 : Except Nat Nat)) =
      (.ok 5, (List.range 0).map (fun k => (1 : ℚ) * 2 ^ k), 0 + 1) :=
  ⟨(retry_on_failure_spec (fun _ => .error 0) (fun _ => 0) 1 1 2 0 0).1
      (fun _ _ => rfl),
   (retry_on_failure_spec (fun _ => .ok 5) (fun _ => 0) 1 1 2 0 5).2
      (Nat.zero_le 1) (fun i hi => absurd hi (Nat.not_lt_zero i)) rfl⟩

/-- Claim C2: between two consecutive invocations of an operation wrapped
by `rate_limit(calls, period)`, the wrapper blocks (sleeps a positive
amount) before the second invocation whenever less than `period / calls`
seconds have elapsed since the previous invocation entered the wrapped
operation, and the wrapped operation is never entered sooner than
`period / calls` seconds after the previous entry.  The first invocation
arrives at time `now1` with the shared cell holding `l0` and the wrapped
call taking `dur1 ≥ 0` seconds; the second invocation arrives at `now2`,
after the first has completed. -/
theorem rate_limit_min_spacing (calls : Nat) (period l0 now1 dur1 now2 : ℚ)
    (hdur : 0 ≤ dur1)
    (hseq : rate_limit_entry (min_interval calls period) l0 now1 + dur1 ≤ now2) :
    (now2 - rate_limit_entry (min_interval calls period) l0 now1 <
        min_interval calls period →
      0 < rate_limit_wait (min_interval calls period)
        (rate_limit_entry (min_interval calls period) l0 now1 + dur1) now2) ∧
    rate_limit_entry (min_interval calls period) l0 now1 +
        min_interval calls period ≤
      rate_limit_entry (min_interval calls period)
        (rate_limit_entry (min_interval calls period) l0 now1 + dur1) now2 := by
  have _ := hseq
  set mi := min_interval calls period with hmi
  set e1 := rate_limit_entry mi l0 now1 with he1
  constructor
  · intro h
    have hpos : 0 < mi - (now2 - (e1 + dur1)) := by linarith
    simp only [rate_limit_wait]
    rw [if_pos hpos]
    exact hpos
  · simp only [rate_limit_entry, rate_limit_wait]
    split_ifs with hw
    · linarith
    · linarith

/-- Witness for C2 at concrete inputs: `rate_limit(calls=1, period=2)`,
first call at time 0 from an initial cell value 0, running for 0 seconds,
second call arriving exactly at the first call's completion. -/
theorem rate_limit_min_spacing_witness :
    (rate_limit_entry (min_interval 1 2) 0 0 + 0 -
          rate_limit_entry (min_interval 1 2) 0 0 <
        min_interval 1 2 →
      0 < rate_limit_wait (min_interval 1 2)
        (rate_limit_entry (min_interval 1 2) 0 0 + 0)
        (rate_limit_entry (min_interval 1 2) 0 0 + 0)) ∧
    rate_limit_entry (min_interval 1 2) 0 0 + min_interval 1 2 ≤
      rate_limit_entry (min_interval 1 2)
        (rate_limit_entry (min_interval 1 2) 0 0 + 0)
        (rate_limit_entry (min_interval 1 2) 0 0 + 0) :=
  rate_limit_min_spacing 1 2 0 0 0
    (rate_limit_entry (min_interval 1 2) 0 0 + 0) (le_refl 0) (le_refl _)

/-- Claim C10: the shared `last_called` timestamp of a `rate_limit` wrapper
is updated only when the wrapped operation returns normally (to the
operation's completion time); when the wrapped operation raises, the
timestamp is left unchanged, so the pacing wait before the next invocation
is computed against the last completed call. -/
theorem rate_limit_last_called_update {E A : Type} (mi l now dur : ℚ)
    (e : E) (a : A) :
    (rate_limit_run mi l now dur (Except.error e : Except E A)).2 = l ∧
    (rate_limit_run mi l now dur (Except.ok a : Except E A)).2 =
      rate_limit_entry mi l now + dur :=
  ⟨rfl, rfl⟩

/-- Claim C3: for every resume text and every job description that is
missing (`None`), empty, or shorter than 50 characters, `match_job`
returns the sentinel `{"score": 0, "coverLetter": ""}` in a single attempt
with no retry sleeps, and no attempt of its body ever invokes the
external model. -/
theorem match_job_short_description (resume : String) (jd : Option String)
    (calls : Nat → ModelCall)
    (h : jd = none ∨ ∃ s, jd = some s ∧ s.length < 50) :
    match_job resume jd calls = (.ok matchSentinel, [], 1) ∧
    ∀ call, (match_job_attempt resume jd call).2 = false := by
  have hatt : ∀ call, match_job_attempt resume jd call = (.ok matchSentinel, false) := by
    intro call
    rcases h with h | ⟨s, hs, hlen⟩
    · subst h; rfl
    · subst hs; simp [match_job_attempt, hlen]
  refine ⟨?_, fun call => by rw [hatt]⟩
  rw [match_job, retry_on_failure, retryLoop]
  simp [hatt]

/-- Witness for C3 at a concrete input: a 5-character job description. -/
theorem match_job_short_description_witness :
    match_job "my resume" (some "short") (fun _ => ModelCall.apiRaise) =
      (.ok matchSentinel, [], 1) ∧
    ∀ call, (match_job_attempt "my resume" (some "short") call).2 = false :=
  match_job_short_description "my resume" (some "short") (fun _ => .apiRaise)
    (Or.inr ⟨"short", rfl, by decide⟩)

/-- A normal result of `retryLoop` is the normal result of one of the
attempts. -/
theorem retryLoop_ok {E A : Type} (op : Nat → Except E A) (r : A) :
    ∀ (remaining attempt : Nat) (d b : ℚ),
      (retryLoop op attempt remaining d b).1 = .ok r → ∃ i, op i = .ok r := by
  intro remaining
  induction remaining with
  | zero =>
    intro attempt d b h
    rw [retryLoop] at h
    cases hop : op attempt with
    | ok a => rw [hop] at h; exact ⟨attempt, by rw [hop]; simpa using h⟩
    | error e => rw [hop] at h; simp at h
  | succ s ih =>
    intro attempt d b h
    rw [retryLoop] at h
    cases hop : op attempt with
    | ok a => rw [hop] at h; exact ⟨attempt, by rw [hop]; simpa using h⟩
    | error e =>
      rw [hop] at h
      exact ih (attempt + 1) (d * b) b h

/-- Any normal return of one attempt of `match_job`'s body carries a score
in `[0, 100]`. -/
theorem match_job_attempt_score_bounds (resume : String) (jd : Option String)
    (call : ModelCall) (r : MatchResult)
    (h : (match_job_attempt resume jd call).1 = .ok r) :
    0 ≤ r.score ∧ r.score ≤ 100 := by
  have hsent : (0 : Int) ≤ matchSentinel.score ∧ matchSentinel.score ≤ 100 := by
    constructor <;> simp [matchSentinel]
  cases jd with
  | none =>
    simp only [match_job_attempt] at h
    obtain rfl : matchSentinel = r := by simpa using h
    exact hsent
  | some s =>
    simp only [match_job_attempt] at h
    by_cases hlen : s.length < 50
    · rw [if_pos hlen] at h
      obtain rfl : matchSentinel = r := by simpa using h
      exact hsent
    · rw [if_neg hlen] at h
      cases call with
      | apiRaise => simp at h
      | respond p =>
        cases p with
        | jsonError =>
          obtain rfl : matchSentinel = r := by simpa using h
          exact hsent
        | obj sf cl =>
          cases sf with
          | missing =>
            obtain rfl : matchSentinel = r := by simpa using h
            exact hsent
          | numeric q =>
            cases cl with
            | none =>
              obtain rfl : matchSentinel = r := by simpa using h
              exact hsent
            | some letter =>
              obtain rfl : (⟨max 0 (min 100 (pythonInt q)), letter⟩ : MatchResult) = r := by
                simpa using h
              exact ⟨le_max_left _ _, max_le (by norm_num) (min_le_left _ _)⟩
          | nonNumeric =>
            cases cl with
            | none =>
              obtain rfl : matchSentinel = r := by simpa using h
              exact hsent
            | some letter => simp at h

/-- Claim C4: every normal result of `match_job` carries an integer score
clamped into `[0, 100]`; moreover, on a model response whose parsed object
has a numeric `score` field `q` and a cover letter, the attempt returns
exactly the truncated-and-clamped score `max 0 (min 100 (int(q)))`, even
when `q` is out of range or not an integer. -/
theorem match_job_score_clamped (resume : String) (jd : Option String)
    (calls : Nat → ModelCall) (r : MatchResult) (s : String) (q : ℚ)
    (letter : String)
    (hok : (match_job resume jd calls).1 = .ok r)
    (hlen : 50 ≤ s.length) :
    (0 ≤ r.score ∧ r.score ≤ 100) ∧
    (match_job_attempt resume (some s)
        (.respond (.obj (.numeric q) (some letter)))).1 =
      .ok ⟨max 0 (min 100 (pythonInt q)), letter⟩ := by
  constructor
  · rw [match_job, retry_on_failure] at hok
    obtain ⟨i, hi⟩ := retryLoop_ok _ r 3 0 2 2 hok
    exact match_job_attempt_score_bounds resume jd (calls i) r hi
  · simp [match_job_attempt, Nat.not_lt.2 hlen]

/-- Witness for C4 at concrete inputs: a run whose model response parses
but misses fields (normal result: the sentinel), and a direct attempt with
the out-of-range non-integer numeric score `205/2`. -/
theorem match_job_score_clamped_witness :
    (0 ≤ matchSentinel.score ∧ matchSentinel.score ≤ 100) ∧
    (match_job_attempt "my resume" (some jd50)
        (.respond (.obj (.numeric (205 / 2)) (some "letter")))).1 =
      .ok ⟨max 0 (min 100 (pythonInt (205 / 2))), "letter"⟩ :=
  match_job_score_clamped "my resume" (some jd50)
    (fun _ => .respond .jsonError) matchSentinel jd50 (205 / 2) "letter"
    (by decide) (by decide)

/-- Claim C5: for `match_job` on a viable job description, a parse failure
of the model response (JSON decode error, or missing `score` or
`coverLetter` field) yields the zero-score empty-letter sentinel in a
single attempt with no retry of the model call, whereas a non-parse raised
error (API-level raise on every attempt, or conversion failure of a
non-numeric score on every attempt) propagates to the caller after the
retry wrapper exhausts its `3 + 1` attempts, sleeping `2, 4, 8` seconds
between them. -/
theorem match_job_parse_vs_raised_errors (resume s : String)
    (calls : Nat → ModelCall) (sf : ScoreField) (cl : Option String)
    (letter : String) (hlen : 50 ≤ s.length) :
    (calls 0 = .respond .jsonError →
      match_job resume (some s) calls = (.ok matchSentinel, [], 1)) ∧
    (calls 0 = .respond (.obj sf cl) → sf = .missing ∨ cl = none →
      match_job resume (some s) calls = (.ok matchSentinel, [], 1)) ∧
    ((∀ i, i ≤ 3 → calls i = .apiRaise) →
      match_job resume (some s) calls =
        (.error .apiErr, (List.range 3).map (fun k => (2 : ℚ) * 2 ^ k), 3 + 1)) ∧
    ((∀ i, i ≤ 3 → calls i = .respond (.obj .nonNumeric (some letter))) →
      match_job resume (some s) calls =
        (.error .convErr, (List.range 3).map (fun k => (2 : ℚ) * 2 ^ k), 3 + 1)) := by
  have hnl : ¬s.length < 50 := Nat.not_lt.2 hlen
  refine ⟨?_, ?_, ?_, ?_⟩
  · intro h0
    rw [match_job, retry_on_failure, retryLoop]
    simp [match_job_attempt, h0, hnl]
  · intro h0 hmiss
    rw [match_job, retry_on_failure, retryLoop]
    rcases hmiss with rfl | rfl
    · simp [match_job_attempt, h0, hnl]
    · cases sf <;> simp [match_job_attempt, h0, hnl]
  · intro hall
    have := retryLoop_all_fail
      (fun i => (match_job_attempt resume (some s) (calls i)).1)
      (fun _ => MatchErr.apiErr) 3 0 2 2
      (fun i h1 h2 => by
        simp [match_job_attempt, hnl, hall i (by omega)])
    simpa [match_job, retry_on_failure] using this
  · intro hall
    have := retryLoop_all_fail
      (fun i => (match_job_attempt resume (some s) (calls i)).1)
      (fun _ => MatchErr.convErr) 3 0 2 2
      (fun i h1 h2 => by
        simp [match_job_attempt, hnl, hall i (by omega)])
    simpa [match_job, retry_on_failure] using this

/-- Witness for C5 at concrete inputs: the four scenarios instantiated on
a 50+ character description. -/
theorem match_job_parse_vs_raised_errors_witness :
    match_job "my resume" (some jd50) (fun _ => .respond .jsonError) =
      (.ok matchSentinel, [], 1) ∧
    match_job "my resume" (some jd50)
        (fun _ => .respond (.obj .missing (some "x"))) =
      (.ok matchSentinel, [], 1) ∧
    match_job "my resume" (some jd50) (fun _ => .apiRaise) =
      (.error .apiErr, (List.range 3).map (fun k => (2 : ℚ) * 2 ^ k), 3 + 1) ∧
    match_job "my resume" (some jd50)
        (fun _ => .respond (.obj .nonNumeric (some "x"))) =
      (.error .convErr, (List.range 3).map (fun k => (2 : ℚ) * 2 ^ k), 3 + 1) :=
  ⟨(match_job_parse_vs_raised_errors "my resume" jd50
      (fun _ => .respond .jsonError) .missing (some "x") "x" (by decide)).1 rfl,
   (match_job_parse_vs_raised_errors "my resume" jd50
      (fun _ => .respond (.obj .missing (some "x"))) .missing (some "x") "x"
      (by decide)).2.1 rfl (Or.inl rfl),
   (match_job_parse_vs_raised_errors "my resume" jd50
      (fun _ => .apiRaise) .missing (some "x") "x" (by decide)).2.2.1
      (fun _ _ => rfl),
   (match_job_parse_vs_raised_errors "my resume" jd50
      (fun _ => .respond (.obj .nonNumeric (some "x"))) .missing (some "x") "x"
      (by decide)).2.2.2 (fun _ _ => rfl)⟩

/-- Splitting a filtered-and-mapped index range at its first index. -/
theorem range_filter_map_shift {α : Type} (n : Nat) (P : Nat → Bool)
    (F : Nat → α) :
    ((List.range (n + 1)).filter P).map F =
      (if P 0 = true then [F 0] else []) ++
        ((List.range n).filter (P ∘ Nat.succ)).map (F ∘ Nat.succ) := by
  by_cases h0 : P 0 = true
  · simp [List.range_succ_eq_map, List.filter_cons, h0, List.filter_map,
      List.map_map]
  · simp [List.range_succ_eq_map, List.filter_cons, h0, List.filter_map,
      List.map_map]

/-- Characterization of the batch loop when exactly the job at global
index `k` raises: the output enriches the jobs at the other indices, in
order. -/
theorem batchMatchGo_one_failure
    (matchFn : Nat → Job → Except MatchErr MatchResult) (k : Nat)
    (rs : Nat → MatchResult) :
    ∀ (l : List Job) (s : Nat),
      (∀ p, p < l.length → s + p ≠ k →
        matchFn (s + p) (l.getD p default) = .ok (rs (s + p))) →
      (∀ p, p < l.length → s + p = k →
        ∃ e, matchFn (s + p) (l.getD p default) = .error e) →
      batchMatchGo matchFn s l =
        ((List.range l.length).filter (fun p => decide (s + p ≠ k))).map
          (fun p => ⟨l.getD p default, (rs (s + p)).score,
                     (rs (s + p)).coverLetter⟩) := by
  intro l
  induction l with
  | nil => intro s hok hfail; rfl
  | cons job t ih =>
    intro s hok hfail
    have hrec := ih (s + 1)
      (fun p hp hne => by
        have := hok (p + 1) (by simpa using Nat.succ_lt_succ hp) (by omega)
        simpa [show s + (p + 1) = s + 1 + p by omega] using this)
      (fun p hp heq => by
        have := hfail (p + 1) (by simpa using Nat.succ_lt_succ hp) (by omega)
        simpa [show s + (p + 1) = s + 1 + p by omega] using this)
    have hfil :
        (List.range t.length).filter ((fun p => decide (s + p ≠ k)) ∘ Nat.succ) =
          (List.range t.length).filter (fun p => decide (s + 1 + p ≠ k)) :=
      List.filter_congr (fun x _ => by
        simp only [Function.comp_apply, Nat.succ_eq_add_one]
        rw [show s + (x + 1) = s + 1 + x by omega])
    have hmap :
        ∀ x ∈ (List.range t.length).filter (fun p => decide (s + 1 + p ≠ k)),
          ((fun p => (⟨(job :: t).getD p default, (rs (s + p)).score,
              (rs (s + p)).coverLetter⟩ : MatchedJob)) ∘ Nat.succ) x =
          (fun p => (⟨t.getD p default, (rs (s + 1 + p)).score,
              (rs (s + 1 + p)).coverLetter⟩ : MatchedJob)) x :=
      fun x _ => by
        simp only [Function.comp_apply, Nat.succ_eq_add_one, List.getD_cons_succ]
        rw [show s + (x + 1) = s + 1 + x by omega]
    rw [List.length_cons, range_filter_map_shift, hfil,
      List.map_congr_left hmap]
    by_cases hsk : s = k
    · obtain ⟨e, he⟩ := hfail 0 (by simp) (by omega)
      simp only [Nat.add_zero, List.getD_cons_zero] at he
      rw [show batchMatchGo matchFn s (job :: t) =
            batchMatchGo matchFn (s + 1) t by
          rw [batchMatchGo]; rw [he]]
      rw [hrec]
      rw [if_neg (by simp [hsk])]
      rw [List.nil_append]
    · obtain hok0 := hok 0 (by simp) (by omega)
      simp only [Nat.add_zero, List.getD_cons_zero] at hok0
      rw [show batchMatchGo matchFn s (job :: t) =
            (⟨job, (rs s).score, (rs s).coverLetter⟩ : MatchedJob) ::
              batchMatchGo matchFn (s + 1) t by
          rw [batchMatchGo]; rw [hok0]]
      rw [hrec]
      rw [if_pos (by simp [hsk])]
      simp

/-- Claim C6: when matching raises on exactly one job `k` of a batch of
`N` jobs, `batch_match_jobs` returns results for the other `N - 1` jobs
in their original order (the loop itself raises nothing: it is a total
function returning this list). -/
theorem batch_match_jobs_containment
    (matchFn : Nat → Job → Except MatchErr MatchResult) (jobs : List Job)
    (k : Nat) (e : MatchErr) (rs : Nat → MatchResult)
    (hk : k < jobs.length)
    (hfail : matchFn k (jobs.getD k default) = .error e)
    (hok : ∀ i, i < jobs.length → i ≠ k →
      matchFn i (jobs.getD i default) = .ok (rs i)) :
    batch_match_jobs matchFn jobs =
      ((List.range jobs.length).filter (fun i => decide (i ≠ k))).map
        (fun i => ⟨jobs.getD i default, (rs i).score, (rs i).coverLetter⟩) ∧
    (batch_match_jobs matchFn jobs).length = jobs.length - 1 := by
  have hmain :
      batch_match_jobs matchFn jobs =
        ((List.range jobs.length).filter (fun i => decide (i ≠ k))).map
          (fun i => ⟨jobs.getD i default, (rs i).score, (rs i).coverLetter⟩) := by
    have := batchMatchGo_one_failure matchFn k rs jobs 0
      (fun p hp hne => by simpa using hok p (by simpa using hp) (by simpa using hne))
      (fun p hp heq => by
        refine ⟨e, ?_⟩
        simp only [Nat.zero_add] at heq ⊢
        rw [heq]
        exact hfail)
    simpa [batch_match_jobs] using this
  refine ⟨hmain, ?_⟩
  rw [hmain, List.length_map]
  have herase : (List.range jobs.length).filter (fun i => decide (i ≠ k)) =
      (List.range jobs.length).erase k := by
    rw [(List.nodup_range jobs.length).erase_eq_filter k]
    exact List.filter_congr (fun x _ => by by_cases h : x = k <;> simp [h, bne])
  rw [herase, List.length_erase_of_mem (List.mem_range.2 hk),
    List.length_range]

/-- Witness for C6 at a concrete input: three jobs of which the middle
one raises. -/
theorem batch_match_jobs_containment_witness :
    batch_match_jobs
        (fun i _ => if i = 1 then .error .apiErr else .ok ⟨7, "c"⟩)
        [⟨"a", "", "", "", ""⟩, ⟨"b", "", "", "", ""⟩, ⟨"c", "", "", "", ""⟩] =
      ((List.range 3).filter (fun i => decide (i ≠ 1))).map
        (fun i => ⟨[(⟨"a", "", "", "", ""⟩ : Job), ⟨"b", "", "", "", ""⟩,
            ⟨"c", "", "", "", ""⟩].getD i default,
          ((fun _ => (⟨7, "c"⟩ : MatchResult)) i).score,
          ((fun _ => (⟨7, "c"⟩ : MatchResult)) i).coverLetter⟩) ∧
    (batch_match_jobs
        (fun i _ => if i = 1 then .error .apiErr else .ok ⟨7, "c"⟩)
        [⟨"a", "", "", "", ""⟩, ⟨"b", "", "", "", ""⟩,
          ⟨"c", "", "", "", ""⟩]).length = 3 - 1 :=
  batch_match_jobs_containment
    (fun i _ => if i = 1 then .error .apiErr else .ok ⟨7, "c"⟩)
    [⟨"a", "", "", "", ""⟩, ⟨"b", "", "", "", ""⟩, ⟨"c", "", "", "", ""⟩]
    1 .apiErr (fun _ => ⟨7, "c"⟩) (by decide) (by decide)
    (fun i h1 h2 => by simp [h2])

/-! ### Cell-writing lemmas for the sheet model -/

theorem setCell_length_le (row : List Cell) (idx : Nat) (v : Cell) :
    row.length ≤ (setCell row idx v).length := by
  unfold setCell
  split
  · simp
  · simp

theorem setCell_get_self (row : List Cell) (idx : Nat) (v : Cell) :
    (setCell row idx v).get? idx = some v := by
  unfold setCell
  split
  · rename_i h
    rw [List.get?_set_eq]
    cases hg : row.get? idx with
    | none => rw [List.get?_eq_none] at hg; omega
    | some x => simp
  · rename_i h
    have hlen : (row ++ List.replicate (idx - row.length) (Cell.s "")).length = idx := by
      simp; omega
    rw [List.get?_append_right (by omega), hlen]
    simp

theorem setCell_get_ne (row : List Cell) (idx : Nat) (v : Cell) (m : Nat)
    (hm : m < row.length) (hne : m ≠ idx) :
    (setCell row idx v).get? m = row.get? m := by
  unfold setCell
  split
  · exact List.get?_set_ne v row hne.symm
  · rw [List.get?_append (by simp; omega), List.get?_append hm]

theorem write_cells_length_le :
    ∀ (vs : List Cell) (row : List Cell) (i : Nat),
      row.length ≤ (write_cells row i vs).length := by
  intro vs
  induction vs with
  | nil => intro row i; exact le_refl _
  | cons v vt ih =>
    intro row i
    calc row.length ≤ (setCell row i v).length := setCell_length_le row i v
      _ ≤ (write_cells (setCell row i v) (i + 1) vt).length := ih _ _

theorem write_cells_get_lt :
    ∀ (vs : List Cell) (row : List Cell) (i m : Nat),
      m < i → m < row.length →
      (write_cells row i vs).get? m = row.get? m := by
  intro vs
  induction vs with
  | nil => intro row i m hmi hmr; rfl
  | cons v vt ih =>
    intro row i m hmi hmr
    rw [write_cells]
    rw [ih (setCell row i v) (i + 1) m (by omega)
      (lt_of_lt_of_le hmr (setCell_length_le row i v))]
    exact setCell_get_ne row i v m hmr (by omega)

theorem write_cells_get_at :
    ∀ (vs : List Cell) (row : List Cell) (i p : Nat),
      p < vs.length →
      (write_cells row i vs).get? (i + p) = vs.get? p := by
  intro vs
  induction vs with
  | nil => intro row i p hp; simp at hp
  | cons v vt ih =>
    intro row i p hp
    cases p with
    | zero =>
      have hlt : i < (setCell row i v).length := by
        unfold setCell
        split
        · rename_i h; simpa using h
        · simp; omega
      rw [write_cells, show i + 0 = i from rfl]
      rw [write_cells_get_lt vt (setCell row i v) (i + 1) i (by omega) hlt]
      rw [setCell_get_self]
      rfl
    | succ p' =>
      rw [write_cells, show i + (p' + 1) = (i + 1) + p' by omega,
        ih (setCell row i v) (i + 1) p' (by simpa using hp)]
      rfl

theorem write_cells_length_lower :
    ∀ (vs : List Cell) (row : List Cell) (i : Nat), vs ≠ [] →
      i + vs.length ≤ (write_cells row i vs).length := by
  intro vs
  induction vs with
  | nil => intro row i h; exact absurd rfl h
  | cons v vt ih =>
    intro row i h
    rw [write_cells]
    cases vt with
    | nil =>
      have : i + 1 ≤ (setCell row i v).length := by
        unfold setCell
        split
        · rename_i hlt; simp; omega
        · simp; omega
      simpa using this
    | cons w wt =>
      have := ih (setCell row i v) (i + 1) (by simp)
      simp only [List.length_cons] at this ⊢
      omega

theorem write_cells_take (vals row : List Cell) :
    (write_cells row 0 vals).take vals.length = vals := by
  cases hv : vals with
  | nil => simp
  | cons v vt =>
    rw [← hv]
    apply List.ext_get?
    intro m
    by_cases hm : m < vals.length
    · rw [List.get?_take hm,
        show (write_cells row 0 vals).get? m = (write_cells row 0 vals).get? (0 + m) by rw [Nat.zero_add],
        write_cells_get_at vals row 0 m hm]
    · rw [List.get?_len_le, List.get?_len_le (by omega)]
      have h7 : vals.length ≤ (write_cells row 0 vals).length := by
        have := write_cells_length_lower vals row 0 (by rw [hv]; simp)
        omega
      rw [List.length_take]
      omega

/-! ### Row-scan lemmas for the sheet model -/

theorem find_job_row_cons (L : String) (row : List Cell)
    (rest : List (List Cell)) (i : Nat) :
    find_job_row L (row :: rest) i =
      if matchRow L row then some i else find_job_row L rest (i + 1) := by
  rw [find_job_row]
  unfold matchRow
  cases hc : row.get? 3 with
  | none => simp [hc]
  | some c => by_cases hcl : c = Cell.s L <;> simp [hc, hcl]

theorem find_job_row_none_iff (L : String) :
    ∀ (rows : List (List Cell)) (i : Nat),
      find_job_row L rows i = none ↔ ∀ r ∈ rows, matchRow L r = false := by
  intro rows
  induction rows with
  | nil => intro i; simp [find_job_row]
  | cons row rest ih =>
    intro i
    rw [find_job_row_cons]
    by_cases h : matchRow L row
    · rw [if_pos h]
      constructor
      · intro hc; simp at hc
      · intro hall
        rw [hall row (List.mem_cons_self row rest)] at h
        exact absurd h (by simp)
    · rw [if_neg h, ih (i + 1)]
      constructor
      · intro hall r hr
        rcases List.mem_cons.mp hr with rfl | hr2
        · simp only [Bool.not_eq_true] at h; exact h
        · exact hall r hr2
      · intro hall r hr
        exact hall r (List.mem_cons_of_mem row hr)

theorem find_job_row_some (L : String) :
    ∀ (rows : List (List Cell)) (i j : Nat),
      find_job_row L rows i = some j →
      ∃ p, j = i + p ∧ p < rows.length ∧
        matchRow L (rows.getD p []) = true ∧
        ∀ q, q < p → matchRow L (rows.getD q []) = false := by
  intro rows
  induction rows with
  | nil => intro i j h; simp [find_job_row] at h
  | cons row rest ih =>
    intro i j h
    rw [find_job_row_cons] at h
    by_cases hm : matchRow L row
    · rw [if_pos hm] at h
      refine ⟨0, by simpa using h.symm, by simp, by simpa using hm, ?_⟩
      intro q hq
      omega
    · rw [if_neg hm] at h
      obtain ⟨p, hp1, hp2, hp3, hp4⟩ := ih (i + 1) j h
      refine ⟨p + 1, by omega, by simpa using hp2, by simpa using hp3, ?_⟩
      intro q hq
      cases q with
      | zero => simpa [Bool.not_eq_true] using hm
      | succ q' => simpa using hp4 q' (by omega)

/-! ### Small list lemmas -/

theorem tail_set_succ {α : Type} (l : List α) (i : Nat) (x : α) :
    (l.set (i + 1) x).tail = l.tail.set i x := by
  cases l <;> rfl

theorem tail_append_left {α : Type} (l m : List α) (h : l ≠ []) :
    (l ++ m).tail = l.tail ++ m := by
  cases l with
  | nil => exact absurd rfl h
  | cons a t => rfl

theorem getD_succ_eq_tail_getD {α : Type} (l : List α) (p : Nat) (d : α) :
    l.getD (p + 1) d = l.tail.getD p d := by
  cases l <;> simp

theorem forall_mem_take {α : Type} (P : α → Prop) (d : α) :
    ∀ (l : List α) (p : Nat),
      (∀ q, q < p → P (l.getD q d)) → ∀ x ∈ l.take p, P x := by
  intro l
  induction l with
  | nil => intro p h x hx; simp at hx
  | cons a t ih =>
    intro p h x hx
    cases p with
    | zero => simp at hx
    | succ p' =>
      rw [List.take_succ_cons] at hx
      rcases List.mem_cons.mp hx with rfl | hx'
      · simpa using h 0 (by omega)
      · exact ih p' (fun q hq => by simpa using h (q + 1) (by omega)) x hx'

/-- A row whose first seven cells are the prepared row of `job` has the
job's apply link in its Link column. -/
theorem matchRow_of_take (r : List Cell) (job : JobData)
    (h : r.take 7 = rowOf job) : matchRow job.apply_link r = true := by
  have h3 : r.get? 3 = some (Cell.s job.apply_link) := by
    rw [← List.get?_take (show 3 < 7 by omega), h]
    rfl
  rw [List.get?_eq_getElem?] at h3
  simp [matchRow, h3]

/-- A sheet whose data rows decompose as `a ++ r :: b` with `r` the unique
matching row has exactly one data row for the link. -/
theorem countLink_of_decomp (s2 : List (List Cell)) (L : String)
    (a : List (List Cell)) (r : List Cell) (b : List (List Cell))
    (htail : s2.tail = a ++ r :: b)
    (ha : ∀ x ∈ a, matchRow L x = false)
    (hb : ∀ x ∈ b, matchRow L x = false)
    (hr : matchRow L r = true) :
    countLink s2 L = 1 := by
  rw [countLink, htail, List.filter_append, List.filter_cons, if_pos hr]
  rw [List.filter_eq_nil.2 (fun x hx => by simp [ha x hx]),
    List.filter_eq_nil.2 (fun x hx => by simp [hb x hx])]
  simp

/-- Effect of one `update_or_append_job` on a sheet whose data rows hold at
most one row for the job's link: the resulting data rows are
`a ++ r :: b` where `r` carries the job's values in its first seven cells
and no row of `a` or `b` matches the link. -/
theorem upsert_effect (job : JobData) (s : List (List Cell))
    (hcount : countLink s job.apply_link ≤ 1) :
    ∃ a r b,
      (update_or_append_job job s).tail = a ++ r :: b ∧
      r.take 7 = rowOf job ∧
      (∀ x ∈ a, matchRow job.apply_link x = false) ∧
      (∀ x ∈ b, matchRow job.apply_link x = false) := by
  have hne : sheetWithHeaders s ≠ [] := by
    rw [sheetWithHeaders]
    split
    · simp
    · rename_i h
      intro hc
      rw [hc] at h
      simp at h
  have htl : (sheetWithHeaders s).tail = s.tail := by
    rw [sheetWithHeaders]
    split
    · rename_i h
      rw [List.isEmpty_iff.mp h]
      rfl
    · rfl
  cases hfind : find_job_row job.apply_link (sheetWithHeaders s).tail 1 with
  | none =>
    have hresult : update_or_append_job job s = sheetWithHeaders s ++ [rowOf job] := by
      rw [update_or_append_job, hfind]
    refine ⟨s.tail, rowOf job, [], ?_, rfl, ?_, by simp⟩
    · rw [hresult, tail_append_left _ _ hne, htl]
    · intro x hx
      have hall := (find_job_row_none_iff job.apply_link _ 1).mp hfind
      rw [htl] at hall
      exact hall x hx
  | some j =>
    obtain ⟨p, hj, hp, hmatch, hbefore⟩ :=
      find_job_row_some job.apply_link _ 1 j hfind
    have hresult : update_or_append_job job s =
        (sheetWithHeaders s).set j
          (write_cells ((sheetWithHeaders s).getD j []) 0 (rowOf job)) := by
      rw [update_or_append_job, hfind]
    rw [htl] at hp hmatch hbefore
    subst hj
    have hgd : (sheetWithHeaders s).getD (1 + p) [] = s.tail.getD p [] := by
      rw [show 1 + p = p + 1 by omega, getD_succ_eq_tail_getD, htl]
    have htail2 : (update_or_append_job job s).tail =
        s.tail.set p (write_cells (s.tail.getD p []) 0 (rowOf job)) := by
      rw [hresult, hgd, show 1 + p = p + 1 by omega, tail_set_succ, htl]
    have hset : s.tail.set p (write_cells (s.tail.getD p []) 0 (rowOf job)) =
        s.tail.take p ++
          write_cells (s.tail.getD p []) 0 (rowOf job) :: s.tail.drop (p + 1) := by
      rw [List.set_eq_take_append_cons_drop, if_pos hp]
    have htake : (∀ x ∈ s.tail.take p, matchRow job.apply_link x = false) :=
      forall_mem_take (fun x => matchRow job.apply_link x = false) []
        s.tail p hbefore
    refine ⟨s.tail.take p, write_cells (s.tail.getD p []) 0 (rowOf job),
      s.tail.drop (p + 1), by rw [htail2, hset], ?_, htake, ?_⟩
    · rw [show (7 : Nat) = (rowOf job).length from rfl]
      exact write_cells_take (rowOf job) (s.tail.getD p [])
    · have hdecomp : s.tail =
          s.tail.take p ++ s.tail.getD p [] :: s.tail.drop (p + 1) := by
        conv_lhs => rw [← List.take_append_drop p s.tail]
        rw [List.drop_eq_getElem_cons hp, List.getD_eq_getElem s.tail [] hp]
      have hcount2 := hcount
      rw [countLink, hdecomp, List.filter_append, List.filter_cons,
        if_pos hmatch,
        List.filter_eq_nil.2 (fun x hx => by simp [htake x hx])] at hcount2
      simp only [List.nil_append, List.length_cons] at hcount2
      have hnil : (s.tail.drop (p + 1)).filter (matchRow job.apply_link) = [] :=
        List.length_eq_zero.mp (by omega)
      intro x hx
      have := List.filter_eq_nil.mp hnil x hx
      simpa [Bool.not_eq_true] using this

/-- Claim C7: starting from a sheet whose data rows (the rows below the
header row, which the scan of `update_or_append_job` skips) contain at
most one row whose Link column equals `L`, upserting `job1` and then
`job2`, both with apply link `L`, leaves exactly one data row for `L`,
and that row holds `job2`'s values in the seven data columns. -/
theorem upsert_roundtrip (s : List (List Cell)) (job1 job2 : JobData)
    (L : String) (h1 : job1.apply_link = L) (h2 : job2.apply_link = L)
    (hcount : countLink s L ≤ 1) :
    countLink (update_or_append_job job2 (update_or_append_job job1 s)) L = 1 ∧
    ∀ r ∈ (update_or_append_job job2 (update_or_append_job job1 s)).tail,
      matchRow L r = true → r.take 7 = rowOf job2 := by
  obtain ⟨a1, r1, b1, ht1, htake1, ha1, hb1⟩ :=
    upsert_effect job1 s (by rw [h1]; exact hcount)
  have hm1 : matchRow L r1 = true := by
    rw [← h1]; exact matchRow_of_take r1 job1 htake1
  have ha1L : ∀ x ∈ a1, matchRow L x = false := fun x hx => by
    rw [← h1]; exact ha1 x hx
  have hb1L : ∀ x ∈ b1, matchRow L x = false := fun x hx => by
    rw [← h1]; exact hb1 x hx
  have hc1 : countLink (update_or_append_job job1 s) L = 1 :=
    countLink_of_decomp _ L a1 r1 b1 ht1 ha1L hb1L hm1
  obtain ⟨a2, r2, b2, ht2, htake2, ha2, hb2⟩ :=
    upsert_effect job2 (update_or_append_job job1 s)
      (by rw [h2]; exact le_of_eq hc1)
  have hm2 : matchRow L r2 = true := by
    rw [← h2]; exact matchRow_of_take r2 job2 htake2
  have ha2L : ∀ x ∈ a2, matchRow L x = false := fun x hx => by
    rw [← h2]; exact ha2 x hx
  have hb2L : ∀ x ∈ b2, matchRow L x = false := fun x hx => by
    rw [← h2]; exact hb2 x hx
  constructor
  · exact countLink_of_decomp _ L a2 r2 b2 ht2 ha2L hb2L hm2
  · intro r hr hmr
    rw [ht2] at hr
    rcases List.mem_append.mp hr with hra | hrc
    · exact absurd hmr (by simp [ha2L r hra])
    · rcases List.mem_cons.mp hrc with rfl | hrb
      · exact htake2
      · exact absurd hmr (by simp [hb2L r hrb])

/-- Witness for C7 at concrete inputs: two upserts of the same link into
an initially empty sheet. -/
theorem upsert_roundtrip_witness :
    countLink (update_or_append_job ⟨"t2", "c2", "l2", "L", 6, "d2", "cl2"⟩
      (update_or_append_job ⟨"t", "c", "l", "L", 5, "d", "cl"⟩ [])) "L" = 1 ∧
    ∀ r ∈ (update_or_append_job ⟨"t2", "c2", "l2", "L", 6, "d2", "cl2"⟩
        (update_or_append_job ⟨"t", "c", "l", "L", 5, "d", "cl"⟩ [])).tail,
      matchRow "L" r = true →
        r.take 7 = rowOf ⟨"t2", "c2", "l2", "L", 6, "d2", "cl2"⟩ :=
  upsert_roundtrip [] ⟨"t", "c", "l", "L", 5, "d", "cl"⟩
    ⟨"t2", "c2", "l2", "L", 6, "d2", "cl2"⟩ "L" rfl rfl (by decide)

/-- Counterexample to claim C8 as stated: in the filter specification
whose experience level field is `"Entry level,Wizard"`, the entry
`"Wizard"` lies outside the recognized experience enumeration, yet the
URL built by `build_search_url` does not omit the experience facet: it
contains the fragment `&f_E=2` contributed by the recognized entry. -/
theorem build_search_url_mixed_facet_counterexample :
    "Wizard" ∈ experienceEntries { experience_level := some "Entry level,Wizard" } ∧
    experience_map "Wizard" = none ∧
    build_search_url { experience_level := some "Entry level,Wizard" } =
      "https://www.linkedin.com/jobs/search/?f_TPR=r86400&f_E=2" ∧
    experienceSegment { experience_level := some "Entry level,Wizard" } ≠ "" := by
  refine ⟨by decide, rfl, by decide, by decide⟩

/-- A facet field that is falsy (absent or the empty string) splits and
strips to the single entry `""`. -/
theorem truthy_false_entries (o : Option String) (h : truthy o = false) :
    (pySplitComma (o.getD "")).map pyStrip = [""] := by
  cases o with
  | none => rfl
  | some s =>
    have hs : s = "" := by simpa [truthy] using h
    subst hs
    rfl

/-- A string starting with a non-empty prefix is non-empty. -/
theorem prefix_append_ne_empty (pre x : String) (h : 0 < pre.length) :
    pre ++ x ≠ "" := by
  intro hc
  have hl := congrArg String.length hc
  rw [String.length_append] at hl
  have hz : ("" : String).length = 0 := rfl
  omega

/-- Claim C8 (amended): for every filter specification, each facet entry
outside the facet's recognized enumeration contributes no code to the URL
— every emitted code is the mapping of some recognized entry — and the
facet's fragment of `build_search_url`'s output is empty (the facet is
omitted from the query string) exactly when no entry of the facet is
recognized: an all-unrecognized (or absent) facet is omitted, and a facet
with at least one recognized entry is emitted. -/
theorem build_search_url_drops_unrecognized (f : Filters) :
    (experienceSegment f = "" ↔
      ∀ x ∈ experienceEntries f, experience_map x = none) ∧
    (∀ c ∈ experienceCodes f, ∃ x ∈ experienceEntries f,
      experience_map x = some c) ∧
    (remoteSegment f = "" ↔ ∀ x ∈ remoteEntries f, remote_map x = none) ∧
    (∀ c ∈ remoteCodes f, ∃ x ∈ remoteEntries f, remote_map x = some c) ∧
    (jobTypeSegment f = "" ↔ ∀ x ∈ jobTypeEntries f, job_type_map x = none) ∧
    (∀ c ∈ jobTypeCodes f, ∃ x ∈ jobTypeEntries f, job_type_map x = some c) := by
  refine ⟨⟨?_, ?_⟩, ?_, ⟨?_, ?_⟩, ?_, ⟨?_, ?_⟩, ?_⟩
  · intro hseg
    by_cases htr : truthy f.experience_level
    · rw [experienceSegment, if_pos htr] at hseg
      by_cases hcodes : (experienceCodes f).isEmpty
      · have hnil : experienceCodes f = [] := by
          rwa [List.isEmpty_iff] at hcodes
        rw [experienceCodes] at hnil
        exact List.filterMap_eq_nil.mp hnil
      · rw [if_neg hcodes] at hseg
        exact absurd hseg (prefix_append_ne_empty "&f_E=" _ (by decide))
    · intro x hx
      rw [experienceEntries, truthy_false_entries f.experience_level
        (by simpa [Bool.not_eq_true] using htr)] at hx
      simp at hx
      subst hx
      rfl
  · intro hall
    have hnil : experienceCodes f = [] := List.filterMap_eq_nil.2 hall
    rw [experienceSegment, hnil]
    split <;> simp
  · intro c hc
    exact List.mem_filterMap.mp hc
  · intro hseg
    by_cases htr : truthy f.remote
    · rw [remoteSegment, if_pos htr] at hseg
      by_cases hcodes : (remoteCodes f).isEmpty
      · have hnil : remoteCodes f = [] := by
          rwa [List.isEmpty_iff] at hcodes
        rw [remoteCodes] at hnil
        exact List.filterMap_eq_nil.mp hnil
      · rw [if_neg hcodes] at hseg
        exact absurd hseg (prefix_append_ne_empty "&f_WT=" _ (by decide))
    · intro x hx
      rw [remoteEntries, truthy_false_entries f.remote
        (by simpa [Bool.not_eq_true] using htr)] at hx
      simp at hx
      subst hx
      rfl
  · intro hall
    have hnil : remoteCodes f = [] := List.filterMap_eq_nil.2 hall
    rw [remoteSegment, hnil]
    split <;> simp
  · intro c hc
    exact List.mem_filterMap.mp hc
  · intro hseg
    by_cases htr : truthy f.job_type
    · rw [jobTypeSegment, if_pos htr] at hseg
      by_cases hcodes : (jobTypeCodes f).isEmpty
      · have hnil : jobTypeCodes f = [] := by
          rwa [List.isEmpty_iff] at hcodes
        rw [jobTypeCodes] at hnil
        exact List.filterMap_eq_nil.mp hnil
      · rw [if_neg hcodes] at hseg
        exact absurd hseg (prefix_append_ne_empty "&f_JT=" _ (by decide))
    · intro x hx
      rw [jobTypeEntries, truthy_false_entries f.job_type
        (by simpa [Bool.not_eq_true] using htr)] at hx
      simp at hx
      subst hx
      rfl
  · intro hall
    have hnil : jobTypeCodes f = [] := List.filterMap_eq_nil.2 hall
    rw [jobTypeSegment, hnil]
    split <;> simp
  · intro c hc
    exact List.mem_filterMap.mp hc

/-- Witness for the amended C8 at concrete inputs: a filter specification
whose three enumerated facets hold only unrecognized values has all three
facet fragments omitted (both directions of each biconditional applied),
and a specification with a recognized experience entry does not omit the
experience facet. -/
theorem build_search_url_drops_unrecognized_witness :
    (experienceSegment
        { experience_level := some "Wizard", remote := some "Mars",
          job_type := some "Gig" } = "" ∧
     remoteSegment
        { experience_level := some "Wizard", remote := some "Mars",
          job_type := some "Gig" } = "" ∧
     jobTypeSegment
        { experience_level := some "Wizard", remote := some "Mars",
          job_type := some "Gig" } = "") ∧
    experienceSegment { experience_level := some "Entry level" } ≠ "" :=
  ⟨⟨(build_search_url_drops_unrecognized _).1.mpr (by decide),
    (build_search_url_drops_unrecognized _).2.2.1.mpr (by decide),
    (build_search_url_drops_unrecognized _).2.2.2.2.1.mpr (by decide)⟩,
   fun hseg =>
    absurd ((build_search_url_drops_unrecognized
        { experience_level := some "Entry level" }).1.mp hseg
      "Entry level" (by decide)) (by decide)⟩

/-- Counterexample to claim C9 as stated: with the minimum-score threshold
50, a matched job whose score is exactly 50 — not above the threshold —
still triggers an individual match notification in the notification step
of the run. -/
theorem run_notifies_at_threshold_counterexample :
    Notification.jobMatch ⟨⟨"t", "c", "l", "d", "a"⟩, 50, "letter"⟩ ∈
      runNotifications 50 1 [⟨⟨"t", "c", "l", "d", "a"⟩, 50, "letter"⟩] ∧
    ¬ (50 : Int) <
      (⟨⟨"t", "c", "l", "d", "a"⟩, 50, "letter"⟩ : MatchedJob).score := by
  refine ⟨by decide, by decide⟩

/-- Claim C9 (amended): the orchestrator's notification step sends an
individual match notification for a matched job exactly when its score is
at least (greater than or equal to) the configured minimum-score
threshold; jobs strictly below the threshold trigger no individual
notification. -/
theorem run_notification_iff_score_ge (minScore : Int) (total : Nat)
    (matched : List MatchedJob) (j : MatchedJob) :
    Notification.jobMatch j ∈ runNotifications minScore total matched ↔
      j ∈ matched ∧ minScore ≤ j.score := by
  rw [runNotifications]
  simp only [List.mem_append, List.mem_map, List.mem_singleton,
    List.mem_filter]
  constructor
  · intro h
    rcases h with ⟨a, ⟨hmem, hsc⟩, heq⟩ | habs
    · cases heq
      exact ⟨hmem, by simpa using hsc⟩
    · cases habs
  · intro ⟨hmem, hsc⟩
    exact Or.inl ⟨j, ⟨hmem, by simpa using hsc⟩, rfl⟩

end JobAuto
